import Mathlib

/-!
Verification development for the PANDA key-exchange package (`panda.go`)
and the key-registration glue (`keys.go`).

Modelling conventions:
* Go byte slices and strings are `List Nat` with each element below 256.
* External library primitives (SHA-256, scrypt, HKDF, curve25519,
  rijndael, NaCl secretbox, SHA-1, JSON parsing) are not part of this
  repository; they are passed in as explicit function parameters
  (bundled in `Prims`), and theorems that depend on their documented
  shape (e.g. output lengths) take that shape as a hypothesis.
* `io.Reader` randomness is an infinite byte stream `Nat → Nat`
  consumed left to right; reads never fail.
* Protobuf serialisation is modelled structurally: a serialised key
  exchange is the protobuf record itself (`ProtoKeyExchange`), since
  `proto.Marshal`/`proto.Unmarshal` round-trip field-for-field.
-/

namespace Panda

abbrev Bytes := List Nat

/-- The zero value of a Go `[32]byte` array. -/
def zero32 : Bytes := List.replicate 32 0

/-- `copy(dst[:], src)` into a fresh `[32]byte`: take up to 32 bytes of
`src`, the rest stays zero. -/
def fill32 (src : Bytes) : Bytes := src.take 32 ++ List.replicate (32 - src.length) 0

theorem fill32_length (src : Bytes) : (fill32 src).length = 32 := by
  simp [fill32]
  omega

theorem fill32_of_length_32 (src : Bytes) (h : src.length = 32) : fill32 src = src := by
  simp [fill32, h, List.take_of_length_le (le_of_eq h)]

/-- `binary.LittleEndian.PutUint32` of `uint32(n)`. -/
def le32enc (n : Nat) : Bytes :=
  [n % 256, n / 256 % 256, n / 65536 % 256, n / 16777216 % 256]

/-- `binary.LittleEndian.Uint32` over the first four bytes. -/
def le32dec (bs : Bytes) : Nat :=
  bs.getD 0 0 + 256 * bs.getD 1 0 + 65536 * bs.getD 2 0 + 16777216 * bs.getD 3 0

/-- Read `n` bytes from the random stream `f` starting at offset `pos`. -/
def randTake (f : Nat → Nat) (pos n : Nat) : Bytes :=
  (List.range n).map (fun i => f (pos + i) % 256)

theorem randTake_length (f : Nat → Nat) (pos n : Nat) : (randTake f pos n).length = n := by
  simp [randTake]

/-! ### Secret Encoding Utility (`NewSecretString`, `isValidSecretString`,
`IsAcceptableSecretString`) -/

/-- `generatedSecretStringPrefix = "r!"` as bytes. -/
def genTag1 : Bytes := [114, 33]

/-- `generatedSecretStringPrefix2 = "r["` as bytes. -/
def genTag2 : Bytes := [114, 91]

/-- Lowercase hex digit character for a value below 16, as in Go's
`hex.EncodeToString`. -/
def hexDigitChar (n : Nat) : Nat := if n < 10 then 48 + n else 87 + n

/-- `hex.EncodeToString`: every byte becomes two lowercase hex characters. -/
def hexEncode : Bytes → Bytes
  | [] => []
  | x :: xs => hexDigitChar (x / 16) :: hexDigitChar (x % 16) :: hexEncode xs

/-- Value of one hex character, as accepted by Go's `hex.Decode`
(digits, lowercase and uppercase letters). -/
def hexCharVal (c : Nat) : Option Nat :=
  if 48 ≤ c ∧ c ≤ 57 then some (c - 48)
  else if 97 ≤ c ∧ c ≤ 102 then some (c - 87)
  else if 65 ≤ c ∧ c ≤ 70 then some (c - 55)
  else none

/-- `hex.Decode`: consumes characters two at a time; any invalid
character (or a trailing odd character) is an error, modelled as `none`. -/
def hexDecode : Bytes → Option Bytes
  | [] => some []
  | [_] => none
  | a :: b :: rest =>
    match hexCharVal a, hexCharVal b, hexDecode rest with
    | some va, some vb, some tail => some ((va * 16 + vb) :: tail)
    | _, _, _ => none

/-- `NewSecretString`, translated from the source: 16 random bytes `b`,
a two-byte digest checksum appended, hex-encoded, and given the `"r!"`
tag. The digest function `h` stands for the external `crypto/sha256`. -/
def newSecretString (h : Bytes → Bytes) (b : Bytes) : Bytes :=
  genTag1 ++ hexEncode (b ++ (h b).take 2)

/-- `isValidSecretString`, translated from the source: requires one of
the two recognised tags, strips two characters, hex-decodes to exactly
18 bytes, and checks the two checksum bytes against the digest of the
first 16. -/
def isValidSecretString (h : Bytes → Bytes) (s : Bytes) : Bool :=
  if ¬(genTag1.isPrefixOf s ∨ genTag2.isPrefixOf s) then false
  else
    let t := s.drop 2
    if t.length % 2 = 1 ∨ t.length / 2 ≠ 18 then false
    else
      match hexDecode t with
      | none => false
      | some bs =>
        decide (bs.getD 16 0 = (h (bs.take 16)).getD 0 0 ∧
                bs.getD 17 0 = (h (bs.take 16)).getD 1 0)

/-- `IsAcceptableSecretString`, translated from the source. -/
def isAcceptableSecretString (h : Bytes → Bytes) (s : Bytes) : Bool :=
  if ¬(genTag1.isPrefixOf s ∨ genTag2.isPrefixOf s) then true
  else isValidSecretString h s

/-- Single-byte mutation of a byte string (position `i` set to `c`). -/
def mutate (s : Bytes) (i c : Nat) : Bytes := s.set i c

/-! ### Shared Secret model and its protobuf record -/

/-- Modelled from the spec: the card-deck structure (`CardStack`) lives
outside the files of this repository; only its deck count and its
canonical fixed-length per-card count vector are consumed here. -/
def numCards : Nat := 52

/-- Modelled from the spec: deck count plus the canonical fixed-length
count vector; the raw shuffled ordering is out of scope. -/
structure CardStack where
  numDecks : Int
  counts : Bytes
deriving DecidableEq

/-- Modelled from the spec: `Canonicalise` produces the canonical
multiset summary; on this reduced representation it is the summary
itself. -/
def CardStack.canonicalise (c : CardStack) : CardStack := c

structure SharedSecret where
  secret : Bytes
  cards : CardStack
  day : Int
  month : Int
  year : Int
  hours : Int
  minutes : Int
deriving DecidableEq

/-- `isStrongRandom`: carries the `"r["` tag and validates. -/
def SharedSecret.isStrongRandom (h : Bytes → Bytes) (s : SharedSecret) : Bool :=
  genTag2.isPrefixOf s.secret && isValidSecretString h s.secret

/-- Go's `int32(...)` conversion (wrap-around into `[-2^31, 2^31)`). -/
def int32wrap (n : Int) : Int := (n + 2 ^ 31) % 2 ^ 32 - 2 ^ 31

structure ProtoTime where
  day : Int
  month : Int
  year : Int
  hours : Int
  minutes : Int
deriving DecidableEq

/-- `panda_proto.KeyExchange_SharedSecret`: optional fields are `Option`;
the repeated/bytes `CardCount` field defaults to empty. -/
structure ProtoSharedSecret where
  secret : Option Bytes
  numDecks : Option Int
  cardCount : Bytes
  time : Option ProtoTime
deriving DecidableEq

/-- `SharedSecret.toProto`, translated from the source. -/
def SharedSecret.toProto (s : SharedSecret) : ProtoSharedSecret :=
  { secret := if s.secret.length > 0 then some s.secret else none
    numDecks := if s.cards.numDecks > 0 then some (int32wrap s.cards.numDecks) else none
    cardCount := if s.cards.numDecks > 0 then s.cards.canonicalise.counts else []
    time :=
      if s.year ≠ 0 then
        some { day := int32wrap s.day, month := int32wrap s.month, year := int32wrap s.year,
               hours := int32wrap s.hours, minutes := int32wrap s.minutes }
      else none }

/-- `newSharedSecret`, translated from the source: unconditional field
restoration with proto defaults, then validation — a positive deck count
requires a card-count vector of exactly `numCards` entries, otherwise
the text secret must be non-empty. -/
def newSharedSecret (p : ProtoSharedSecret) : Option SharedSecret :=
  let secret := p.secret.getD []
  let nd := p.numDecks.getD 0
  let base : SharedSecret :=
    { secret
      cards := { numDecks := nd, counts := List.replicate numCards 0 }
      day := (p.time.map (·.day)).getD 0
      month := (p.time.map (·.month)).getD 0
      year := (p.time.map (·.year)).getD 0
      hours := (p.time.map (·.hours)).getD 0
      minutes := (p.time.map (·.minutes)).getD 0 }
  if nd > 0 then
    if p.cardCount.length ≠ numCards then none
    else some { base with cards := { numDecks := nd, counts := p.cardCount } }
  else if secret.length = 0 then none
  else some base

/-- The zero value of `panda_proto.KeyExchange_SharedSecret` (a nil
pointer behaves like this under the proto getters). -/
def emptyProtoSharedSecret : ProtoSharedSecret :=
  { secret := none, numDecks := none, cardCount := [], time := none }

/-! ### Key Exchange state machine -/

inductive KXStatus where
  | INIT
  | EXCHANGE1
  | EXCHANGE2
deriving DecidableEq

/-- `panda_proto.KeyExchange`: the serialised record. Byte fields are
optional (nil when the status is `INIT`). -/
structure ProtoKeyExchange where
  status : KXStatus
  sharedSecret : Option ProtoSharedSecret
  keyExchangeBytes : Bytes
  dhPrivate : Option Bytes
  key : Option Bytes
  meeting1 : Option Bytes
  meeting2 : Option Bytes
  message1 : Option Bytes
  message2 : Option Bytes
  sharedKey : Option Bytes
deriving DecidableEq

/-- The `MeetingPlace` interface: a fixed padding size and a blocking
exchange keyed by a rendezvous tag. A `none` reply models the Go error
return; the logger and shutdown-channel arguments carry no protocol
state and are omitted. -/
structure MeetingPlace where
  padding : Nat
  exchange : Bytes → Bytes → Option Bytes

/-- `secretbox.Overhead`. -/
def secretboxOverhead : Nat := 16

/-- External cryptographic primitives used by the package. None of
these live in this repository; they are deterministic functions
supplied by libraries. `hkdf3`/`scrypt3` consume the canonical
serialised shared-secret record (modelled structurally) and produce
the three 32-byte values key, meeting tag 1, meeting tag 2. -/
structure Prims where
  sha256 : Bytes → Bytes
  scalarBaseMult : Bytes → Bytes
  scalarMult : Bytes → Bytes → Bytes
  rijndaelEnc : Bytes → Bytes → Bytes
  rijndaelDec : Bytes → Bytes → Bytes
  hkdf3 : ProtoSharedSecret → Bytes × Bytes × Bytes
  scrypt3 : ProtoSharedSecret → Bytes × Bytes × Bytes
  secretboxSeal : Bytes → Bytes → Bytes → Bytes
  secretboxOpen : Bytes → Bytes → Bytes → Option Bytes

/-- The `KeyExchange` struct. The random stream and its read offset
model the `io.Reader`; the mutex and logger carry no state. -/
structure KeyExchange where
  testing : Bool
  shutdown : Bool
  randF : Nat → Nat
  randPos : Nat
  status : KXStatus
  meetingPlace : MeetingPlace
  sharedSecret : SharedSecret
  serialised : ProtoKeyExchange
  kxBytes : Bytes
  key : Bytes
  meeting1 : Bytes
  meeting2 : Bytes
  dhPublic : Bytes
  dhPrivate : Bytes
  sharedKey : Bytes
  message1 : Bytes
  message2 : Bytes

/-- The protobuf record built by `updateSerialised`: derived fields are
present only past `INIT`. -/
def mkProto (kx : KeyExchange) : ProtoKeyExchange :=
  if kx.status = .INIT then
    { status := kx.status, sharedSecret := some kx.sharedSecret.toProto,
      keyExchangeBytes := kx.kxBytes,
      dhPrivate := none, key := none, meeting1 := none, meeting2 := none,
      message1 := none, message2 := none, sharedKey := none }
  else
    { status := kx.status, sharedSecret := some kx.sharedSecret.toProto,
      keyExchangeBytes := kx.kxBytes,
      dhPrivate := some kx.dhPrivate, key := some kx.key,
      meeting1 := some kx.meeting1, meeting2 := some kx.meeting2,
      message1 := some kx.message1, message2 := some kx.message2,
      sharedKey := some kx.sharedKey }

/-- `updateSerialised`, translated from the source. -/
def updateSerialised (kx : KeyExchange) : KeyExchange :=
  { kx with serialised := mkProto kx }

/-- `Marshal`: returns the current serialised snapshot. -/
def KeyExchange.marshal (kx : KeyExchange) : ProtoKeyExchange := kx.serialised

/-- `NewKeyExchange`, translated from the source: size check, fresh DH
key pair from the random stream, initial snapshot. -/
def NewKeyExchange (P : Prims) (randF : Nat → Nat) (mp : MeetingPlace)
    (ss : SharedSecret) (kxBytes : Bytes) : Option KeyExchange :=
  if 24 + 4 + kxBytes.length + secretboxOverhead > mp.padding then none
  else
    let priv := randTake randF 0 32
    let kx : KeyExchange :=
      { testing := false, shutdown := false, randF, randPos := 32,
        status := .INIT, meetingPlace := mp, sharedSecret := ss,
        serialised := default_proto, kxBytes,
        key := zero32, meeting1 := zero32, meeting2 := zero32,
        dhPublic := fill32 (P.scalarBaseMult priv), dhPrivate := priv,
        sharedKey := zero32, message1 := [], message2 := [] }
    some (updateSerialised kx)
where
  default_proto : ProtoKeyExchange :=
    { status := .INIT, sharedSecret := none, keyExchangeBytes := [],
      dhPrivate := none, key := none, meeting1 := none, meeting2 := none,
      message1 := none, message2 := none, sharedKey := none }

/-- `UnmarshalKeyExchange`, translated from the source: validates the
shared secret, restores every serialised field (absent byte fields are
zero), and recomputes the DH public value from the stored private key. -/
def UnmarshalKeyExchange (P : Prims) (randF : Nat → Nat) (mp : MeetingPlace)
    (p : ProtoKeyExchange) : Option KeyExchange :=
  match newSharedSecret (p.sharedSecret.getD emptyProtoSharedSecret) with
  | none => none
  | some ss =>
    let priv := fill32 (p.dhPrivate.getD [])
    some
      { testing := false, shutdown := false, randF, randPos := 0,
        status := p.status, meetingPlace := mp, sharedSecret := ss,
        serialised := p, kxBytes := p.keyExchangeBytes,
        key := fill32 (p.key.getD []), meeting1 := fill32 (p.meeting1.getD []),
        meeting2 := fill32 (p.meeting2.getD []),
        dhPublic := fill32 (P.scalarBaseMult priv), dhPrivate := priv,
        sharedKey := fill32 (p.sharedKey.getD []),
        message1 := p.message1.getD [], message2 := p.message2.getD [] }

/-! ### The protocol steps and `Run` -/

/-- Error values `Run` can return. `mpErr` stands for whatever error the
meeting place's `Exchange` produced. -/
inductive KxErr where
  | shutdown
  | mpErr
  | initTooLarge
  | replyTooSmall
  | authFail
  | msgInvalid
  | msgTruncated
deriving DecidableEq

/-- Result of one `Run` call. Go panics are a distinct terminal outcome,
tagged by the site that raised them. -/
inductive RunRes where
  | payload (b : Bytes)
  | err (e : KxErr)
  | panicked (site : String)
deriving DecidableEq

/-- `derivePassword`, translated from the source (the `386` subprocess
branch is the scrypt path by another route; the spec requires its output
to be bit-identical). Returns the possibly-failed outcome together with
the mutated state: key material is written before the size check, and
`message1` is built as the encrypted DH value plus random filler up to
the padding size. -/
def derivePassword (P : Prims) (kx : KeyExchange) : Option KxErr × KeyExchange :=
  let pss := kx.sharedSecret.toProto
  let triple :=
    if kx.testing || kx.sharedSecret.isStrongRandom P.sha256 then P.hkdf3 pss
    else P.scrypt3 pss
  let kx1 := { kx with key := fill32 triple.1, meeting1 := fill32 triple.2.1,
                       meeting2 := fill32 triple.2.2 }
  let encDH := fill32 (P.rijndaelEnc kx1.key kx1.dhPublic)
  let padding := kx1.meetingPlace.padding
  if 32 > padding then (some .initTooLarge, kx1)
  else
    let filler := randTake kx1.randF kx1.randPos (padding - 32)
    (none, { kx1 with randPos := kx1.randPos + (padding - 32),
                      message1 := encDH ++ filler })

/-- Outcome of `exchange1`: the step either completes (mutated state) or
fails with a `Run`-level result, carrying the state as mutated so far. -/
inductive StepOut where
  | ok (kx : KeyExchange)
  | fail (r : RunRes) (kx : KeyExchange)

/-- `exchange1`, translated from the source: one `Exchange` call, peer
DH value decrypted, shared key computed, then the padded block (4-byte
little-endian length, payload, random filler) sealed under a fresh
nonce. Out-of-range buffer arithmetic panics exactly where Go would
(negative `make`, `PutUint32` on a short buffer, slicing past the end). -/
def exchange1 (P : Prims) (kx : KeyExchange) : StepOut :=
  match kx.meetingPlace.exchange kx.meeting1 kx.message1 with
  | none => .fail (.err .mpErr) kx
  | some reply =>
    if reply.length < 32 then .fail (.err .replyTooSmall) kx
    else
      let peerPub := fill32 (P.rijndaelDec kx.key (fill32 reply))
      let kx1 := { kx with sharedKey := fill32 (P.scalarMult kx.dhPrivate peerPub) }
      let paddedLen := kx1.meetingPlace.padding
      if paddedLen < 24 + secretboxOverhead then .fail (.panicked "makeslice") kx1
      else
        let blockLen := paddedLen - 24 - secretboxOverhead
        if blockLen < 4 then .fail (.panicked "PutUint32 bounds") kx1
        else if blockLen < 4 + kx1.kxBytes.length then .fail (.panicked "slice bounds") kx1
        else
          let filler := randTake kx1.randF kx1.randPos (blockLen - 4 - kx1.kxBytes.length)
          let pos1 := kx1.randPos + (blockLen - 4 - kx1.kxBytes.length)
          let padded := le32enc kx1.kxBytes.length ++ kx1.kxBytes ++ filler
          let nonce := randTake kx1.randF pos1 24
          .ok { kx1 with randPos := pos1 + 24,
                         message2 := nonce ++ P.secretboxSeal nonce kx1.sharedKey padded }

/-- The result of the `EXCHANGE2` step as a function of the shared key
and the meeting place's reply (`none` = the `Exchange` call errored):
nonce split off, the `panic("here")` guard on a shared key starting
with two zero bytes, authenticated decryption, and length-prefix
framing checks, translated from the source. -/
def exchange2res (P : Prims) (sharedKey : Bytes) (o : Option Bytes) : RunRes :=
  match o with
  | none => .err .mpErr
  | some reply =>
    if reply.length < 24 then .err .replyTooSmall
    else if sharedKey.getD 0 0 = 0 ∧ sharedKey.getD 1 0 = 0 then
      .panicked "here"
    else
      let nonce := reply.take 24
      match P.secretboxOpen nonce sharedKey (reply.drop 24) with
      | none => .err .authFail
      | some message =>
        if message.length < 4 then .err .msgInvalid
        else
          let l := le32dec (message.take 4)
          let rest := message.drop 4
          if l > rest.length then .err .msgTruncated
          else .payload (rest.take l)

/-- `exchange2`, translated from the source: one `Exchange` call, then
the reply handling of `exchange2res`. The step reads but never mutates
the state. -/
def exchange2 (P : Prims) (kx : KeyExchange) : RunRes × KeyExchange :=
  (exchange2res P kx.sharedKey (kx.meetingPlace.exchange kx.meeting2 kx.message2), kx)

/-- The `EXCHANGE1` arm of `Run` with its fallthrough into `EXCHANGE2`:
step, advance, persist, shutdown boundary check. The third component
counts `Exchange` calls made. -/
def runFrom1 (P : Prims) (kx : KeyExchange) : RunRes × KeyExchange × Nat :=
  match exchange1 P kx with
  | .fail r kx1 => (r, kx1, 1)
  | .ok kx1 =>
    let kx2 := updateSerialised { kx1 with status := .EXCHANGE2 }
    if kx2.shutdown then (.err .shutdown, kx2, 1)
    else
      let o := exchange2 P kx2
      (o.1, o.2, 2)

/-- `Run`, translated from the source: enum-dispatched fallthrough from
the stored status, persisting after each completed transition and
checking the shutdown signal at each boundary. -/
def Run (P : Prims) (kx : KeyExchange) : RunRes × KeyExchange × Nat :=
  match kx.status with
  | .INIT =>
    match derivePassword P kx with
    | (some e, kx1) => (.err e, kx1, 0)
    | (none, kx1) =>
      let kx2 := updateSerialised { kx1 with status := .EXCHANGE1 }
      if kx2.shutdown then (.err .shutdown, kx2, 0)
      else runFrom1 P kx2
  | .EXCHANGE1 => runFrom1 P kx
  | .EXCHANGE2 =>
    let o := exchange2 P kx
    (o.1, o.2, 1)

end Panda

namespace Keys

/-! ### `keys.go`: key-registration glue over an abstract key/value DB.
The HTTP plumbing (BasicAuth extraction, status codes, logging) carries
no stored state; `sha1`, `encodeNumber` and JSON validation are code
from outside `src/` and appear as parameters. -/

abbrev DB := List ((Panda.Bytes × Panda.Bytes) × Panda.Bytes)

/-- The `[]byte("k")` bucket used by both handlers. -/
def kBucket : Panda.Bytes := [107]

def writeDB (db : DB) (id bucket value : Panda.Bytes) : DB :=
  ((id, bucket), value) :: db

def readDB : DB → Panda.Bytes → Panda.Bytes → Option Panda.Bytes
  | [], _, _ => none
  | (k, v) :: rest, id, bucket =>
    if k = (id, bucket) then some v else readDB rest id bucket

/-- `registerKeys`, translated from the source: the body must parse as
JSON, then the raw body is stored under the SHA-1 digest of the
Basic-Auth username. -/
def registerKeys (sha1 : Panda.Bytes → Panda.Bytes) (jsonOk : Panda.Bytes → Bool)
    (db : DB) (uname body : Panda.Bytes) : Option DB :=
  if jsonOk body then some (writeDB db (sha1 uname) kBucket body) else none

/-- `recipientKeys`, translated from the source: reads under
`encodeNumber(username)` and re-validates the stored JSON. -/
def recipientKeys (encodeNumber : Panda.Bytes → Panda.Bytes) (jsonOk : Panda.Bytes → Bool)
    (db : DB) (uname : Panda.Bytes) : Option Panda.Bytes :=
  match readDB db (encodeNumber uname) kBucket with
  | none => none
  | some v => if jsonOk v then some v else none

end Keys

namespace Panda

/-! ### Concrete instantiations of the external primitives, used to
evaluate the model at specific inputs. -/

def toySha (bs : Bytes) : Bytes :=
  let s := bs.foldl (fun a x => (a * 31 + x + 1) % 65521) 7
  (List.range 32).map (fun i => (s + 11 * i) % 256)

def pssNum (p : ProtoSharedSecret) : Nat :=
  (p.secret.getD []).foldl (fun a x => (a * 33 + x + 1) % 100003) 5
    + (p.numDecks.getD 0).natAbs + p.cardCount.foldl (fun a x => (a + x) % 97) 0

def toyKdf (salt : Nat) (p : ProtoSharedSecret) : Bytes × Bytes × Bytes :=
  let s := pssNum p + salt
  ((List.range 32).map (fun i => (s + 3 * i) % 256),
   (List.range 32).map (fun i => (s + 5 * i + 1) % 256),
   (List.range 32).map (fun i => (s + 7 * i + 2) % 256))

def toyEnc (k b : Bytes) : Bytes := List.zipWith (fun x y => (x + y) % 256) b k

def toyDec (k c : Bytes) : Bytes := List.zipWith (fun x y => (x + 256 - y % 256) % 256) c k

def toyBase (priv : Bytes) : Bytes := priv.map (fun x => (2 * x + 1) % 256)

def toyMult (priv pub : Bytes) : Bytes :=
  List.zipWith (fun a b => (a * 7 + b * 13 + a * b + 3) % 256) priv pub

def toyMac (nonce key msg : Bytes) : Bytes :=
  let m := msg.foldl (fun a x => (a * 31 + x + 1) % 65521) 3
  (List.range 16).map (fun i => (key.getD i 0 * 5 + nonce.getD i 0 * 3 + m + i) % 256)

def toySealBody (key msg : Bytes) : Bytes :=
  List.zipWith (fun x i => (x + key.getD (i % 32) 0) % 256) msg (List.range msg.length)

def toyOpenBody (key c : Bytes) : Bytes :=
  List.zipWith (fun x i => (x + 256 - key.getD (i % 32) 0 % 256) % 256) c (List.range c.length)

def toySeal (nonce key msg : Bytes) : Bytes :=
  toySealBody key msg ++ toyMac nonce key msg

def toyOpen (nonce key c : Bytes) : Option Bytes :=
  if c.length < 16 then none
  else
    let body := c.take (c.length - 16)
    let msg := toyOpenBody key body
    if c.drop (c.length - 16) = toyMac nonce key msg then some msg else none

def toyPrims : Prims :=
  { sha256 := toySha, scalarBaseMult := toyBase, scalarMult := toyMult,
    rijndaelEnc := toyEnc, rijndaelDec := toyDec,
    hkdf3 := toyKdf 1, scrypt3 := toyKdf 2,
    secretboxSeal := toySeal, secretboxOpen := toyOpen }

instance : Inhabited KeyExchange :=
  ⟨{ testing := false, shutdown := false, randF := fun _ => 0, randPos := 0,
     status := .INIT,
     meetingPlace := { padding := 0, exchange := fun _ _ => none },
     sharedSecret := { secret := [], cards := ⟨0, []⟩, day := 0, month := 0,
                       year := 0, hours := 0, minutes := 0 },
     serialised := { status := .INIT, sharedSecret := none, keyExchangeBytes := [],
                     dhPrivate := none, key := none, meeting1 := none,
                     meeting2 := none, message1 := none, message2 := none,
                     sharedKey := none },
     kxBytes := [], key := [], meeting1 := [], meeting2 := [],
     dhPublic := [], dhPrivate := [], sharedKey := [],
     message1 := [], message2 := [] }⟩

instance : Inhabited SharedSecret :=
  ⟨{ secret := [], cards := ⟨0, []⟩, day := 0, month := 0, year := 0,
     hours := 0, minutes := 0 }⟩

/-- The state carried by a step outcome. -/
def StepOut.state : StepOut → KeyExchange
  | .ok kx => kx
  | .fail _ kx => kx

/-! ### Structural facts about the steps -/

theorem derivePassword_meetingPlace (P : Prims) (kx : KeyExchange) :
    ((derivePassword P kx).2).meetingPlace = kx.meetingPlace := by
  unfold derivePassword; dsimp only; split <;> rfl

theorem derivePassword_kxBytes (P : Prims) (kx : KeyExchange) :
    ((derivePassword P kx).2).kxBytes = kx.kxBytes := by
  unfold derivePassword; dsimp only; split <;> rfl

theorem derivePassword_shutdown (P : Prims) (kx : KeyExchange) :
    ((derivePassword P kx).2).shutdown = kx.shutdown := by
  unfold derivePassword; dsimp only; split <;> rfl

theorem derivePassword_serialised (P : Prims) (kx : KeyExchange) :
    ((derivePassword P kx).2).serialised = kx.serialised := by
  unfold derivePassword; dsimp only; split <;> rfl

theorem derivePassword_fail_iff (P : Prims) (kx : KeyExchange) :
    (derivePassword P kx).1 ≠ none ↔ kx.meetingPlace.padding < 32 := by
  unfold derivePassword; dsimp only; split <;> simp <;> omega

theorem exchange1_state_serialised (P : Prims) (kx : KeyExchange) :
    ((exchange1 P kx).state).serialised = kx.serialised := by
  simp only [exchange1]
  repeat' split
  all_goals rfl

theorem exchange2_state (P : Prims) (kx : KeyExchange) :
    (exchange2 P kx).2 = kx := rfl

theorem exchange2res_ne_size (P : Prims) (sk : Bytes) (o : Option Bytes) :
    exchange2res P sk o ≠ .err .initTooLarge ∧
    exchange2res P sk o ≠ .panicked "makeslice" ∧
    exchange2res P sk o ≠ .panicked "PutUint32 bounds" ∧
    exchange2res P sk o ≠ .panicked "slice bounds" := by
  simp only [exchange2res]
  repeat' split
  all_goals refine ⟨?_, ?_, ?_, ?_⟩ <;> simp

theorem exchange2_fst_ne_size (P : Prims) (kx : KeyExchange) :
    (exchange2 P kx).1 ≠ .err .initTooLarge ∧
    (exchange2 P kx).1 ≠ .panicked "makeslice" ∧
    (exchange2 P kx).1 ≠ .panicked "PutUint32 bounds" ∧
    (exchange2 P kx).1 ≠ .panicked "slice bounds" :=
  exchange2res_ne_size P _ _

theorem exchange1_fail_cases (P : Prims) (kx : KeyExchange)
    (h : 24 + 4 + kx.kxBytes.length + secretboxOverhead ≤ kx.meetingPlace.padding) :
    ∀ r kx1, exchange1 P kx = .fail r kx1 → r = .err .mpErr ∨ r = .err .replyTooSmall := by
  intro r kx1 he
  simp only [exchange1, secretboxOverhead] at he h
  split at he
  · exact Or.inl (StepOut.fail.inj he).1.symm
  · split at he
    · exact Or.inr (StepOut.fail.inj he).1.symm
    · split at he
      · omega
      · split at he
        · omega
        · split at he
          · omega
          · exact absurd he (by simp)

end Panda

/-! ## Claim C10: `registerKeys` / `recipientKeys` identifier mismatch -/

/-- C10: `registerKeys` stores the body under the SHA-1 digest of the
Basic-Auth username while `recipientKeys` reads under
`encodeNumber(username)`, so a freshly registered bundle is retrieved
exactly when `encodeNumber` of the username coincides with its SHA-1
digest. -/
theorem C10_identifier_mismatch :
    ∀ (sha1 encodeNumber : Panda.Bytes → Panda.Bytes) (jsonOk : Panda.Bytes → Bool)
      (uname body : Panda.Bytes) (db' : Keys.DB),
      jsonOk body = true →
      Keys.registerKeys sha1 jsonOk [] uname body = some db' →
      (Keys.recipientKeys encodeNumber jsonOk db' uname = some body ↔
        encodeNumber uname = sha1 uname) := by
  intro sha1 encodeNumber jsonOk uname body db' hjson hreg
  simp only [Keys.registerKeys, hjson, if_true, Option.some.injEq] at hreg
  subst hreg
  simp only [Keys.recipientKeys, Keys.writeDB, Keys.readDB]
  constructor
  · intro hsome
    by_cases heq : (sha1 uname, Keys.kBucket) = (encodeNumber uname, Keys.kBucket)
    · exact (Prod.mk.injEq _ _ _ _ ▸ heq).1.symm
    · simp [heq] at hsome
  · intro heq
    simp [heq, hjson]

/-- C10 witness: with `encodeNumber` equal to the digest function, a
registered bundle is retrieved. -/
theorem C10_witness :
    Keys.recipientKeys (fun b => 0 :: b) (fun _ => true)
      [(((fun (b : Panda.Bytes) => 0 :: b) [1], Keys.kBucket), [2])] [1] = some [2] :=
  (C10_identifier_mismatch (fun b => 0 :: b) (fun b => 0 :: b) (fun _ => true)
    [1] [2] _ rfl rfl).mpr rfl

/-! ## Claim C5: shared-secret deserialization validity -/

namespace Panda

/-- A serialised shared-secret record carrying both a non-empty text
secret and a positive deck count. -/
def pBoth : ProtoSharedSecret :=
  { secret := some [120], numDecks := some 1,
    cardCount := List.replicate numCards 1, time := none }

def ssBoth : SharedSecret := (newSharedSecret pBoth).getD default

/-- C5 counterexample: `newSharedSecret` accepts a record with both a
non-empty text secret and a positive deck count, so the accepted value
violates the claimed exactly-one invariant. -/
theorem C5_counterexample :
    newSharedSecret pBoth = some ssBoth ∧
    0 < ssBoth.secret.length ∧ 0 < ssBoth.cards.numDecks := by
  decide

/-- C5 amended: deserialization succeeds iff either the deck count is
positive and the card-count vector has exactly `numCards` entries, or
the deck count is not positive and the text secret is non-empty; every
accepted record satisfies at least one (not exactly one) of
"text secret non-empty" / "deck count positive". -/
theorem C5_amended :
    ∀ p : ProtoSharedSecret,
      ((newSharedSecret p).isSome ↔
        ((0 < p.numDecks.getD 0 ∧ p.cardCount.length = numCards) ∨
         (p.numDecks.getD 0 ≤ 0 ∧ 0 < (p.secret.getD []).length))) ∧
      (∀ s, newSharedSecret p = some s →
        0 < s.secret.length ∨ 0 < s.cards.numDecks) := by
  intro p
  constructor
  · simp only [newSharedSecret]
    by_cases hnd : 0 < p.numDecks.getD 0
    · by_cases hc : p.cardCount.length = numCards
      · simp [hnd, hc]
      · simp [hnd, hc]
    · by_cases hs : (p.secret.getD []).length = 0
      · simp [hnd, hs]
      · simp [hnd, hs]
        omega
  · intro s hs
    simp only [newSharedSecret] at hs
    split at hs
    · split at hs
      · exact absurd hs (by simp)
      · rename_i hnd _
        rw [Option.some.injEq] at hs
        subst hs
        exact Or.inr hnd
    · split at hs
      · exact absurd hs (by simp)
      · rename_i hsec
        rw [Option.some.injEq] at hs
        subst hs
        exact Or.inl (by simpa using Nat.pos_of_ne_zero hsec)

/-- C5 witness: the amended characterisation applied to the
both-fields record. -/
theorem C5_witness : 0 < ssBoth.secret.length ∨ 0 < ssBoth.cards.numDecks :=
  (C5_amended pBoth).2 ssBoth (by decide)

end Panda

/-! ## Claim C2: payload size is checked at construction and never
fails a later step -/

namespace Panda

theorem runFrom1_no_size (P : Prims) (kx : KeyExchange)
    (h : 24 + 4 + kx.kxBytes.length + secretboxOverhead ≤ kx.meetingPlace.padding) :
    (runFrom1 P kx).1 ≠ .err .initTooLarge ∧
    (runFrom1 P kx).1 ≠ .panicked "makeslice" ∧
    (runFrom1 P kx).1 ≠ .panicked "PutUint32 bounds" ∧
    (runFrom1 P kx).1 ≠ .panicked "slice bounds" := by
  unfold runFrom1
  cases he : exchange1 P kx with
  | ok kx1 =>
    dsimp only
    split
    · simp
    · exact exchange2_fst_ne_size P _
  | fail r kx1 =>
    dsimp only
    rcases exchange1_fail_cases P kx h r kx1 he with h1 | h1 <;> subst h1 <;> simp

theorem Run_init_no_size (P : Prims) (kx : KeyExchange) (hst : kx.status = .INIT)
    (h : 24 + 4 + kx.kxBytes.length + secretboxOverhead ≤ kx.meetingPlace.padding) :
    ∀ res kx' n, Run P kx = (res, kx', n) →
      res ≠ .err .initTooLarge ∧ res ≠ .panicked "makeslice" ∧
      res ≠ .panicked "PutUint32 bounds" ∧ res ≠ .panicked "slice bounds" := by
  intro res kx' n hrun
  unfold Run at hrun
  rw [hst] at hrun
  dsimp only at hrun
  rcases hd : derivePassword P kx with ⟨e, kx1⟩
  rw [hd] at hrun
  cases e with
  | some e' =>
    exfalso
    have : (derivePassword P kx).1 ≠ none := by rw [hd]; simp
    rw [derivePassword_fail_iff] at this
    simp only [secretboxOverhead] at h
    omega
  | none =>
    dsimp only at hrun
    split at hrun
    · rw [Prod.mk.injEq] at hrun
      rcases hrun with ⟨hres, _⟩
      subst hres
      simp
    · have hkx1 : kx1 = (derivePassword P kx).2 := by rw [hd]
      have hfields :
          24 + 4 + (updateSerialised { kx1 with status := .EXCHANGE1 }).kxBytes.length
            + secretboxOverhead
            ≤ (updateSerialised { kx1 with status := .EXCHANGE1 }).meetingPlace.padding := by
        show 24 + 4 + kx1.kxBytes.length + secretboxOverhead ≤ kx1.meetingPlace.padding
        rw [hkx1, derivePassword_kxBytes, derivePassword_meetingPlace]
        exact h
      have := runFrom1_no_size P _ hfields
      rw [hrun] at this
      exact this

/-- C2: constructing a key exchange fails exactly when
`24 + 4 + len(payload) + secretbox.Overhead` exceeds the meeting
place's `Padding()`; and when construction succeeds, `Run` never
returns the initial-message size error nor panics in the padded-buffer
arithmetic of `exchange1` — no later step fails because of the
payload's size. (The random stream is modelled as inexhaustible, so
randomness faults are out of scope.) -/
theorem C2_size_check :
    ∀ (P : Prims) (randF : Nat → Nat) (mp : MeetingPlace) (ss : SharedSecret) (kxB : Bytes),
      (NewKeyExchange P randF mp ss kxB = none ↔
        mp.padding < 24 + 4 + kxB.length + secretboxOverhead) ∧
      (∀ kx, NewKeyExchange P randF mp ss kxB = some kx →
        ∀ res kx' n, Run P kx = (res, kx', n) →
          res ≠ .err .initTooLarge ∧ res ≠ .panicked "makeslice" ∧
          res ≠ .panicked "PutUint32 bounds" ∧ res ≠ .panicked "slice bounds") := by
  intro P randF mp ss kxB
  constructor
  · simp only [NewKeyExchange]
    split
    · rename_i hgt
      simp only [true_iff]
      omega
    · rename_i hle
      simp only [iff_false_intro (by omega : ¬mp.padding < 24 + 4 + kxB.length + secretboxOverhead)]
      simp
  · intro kx hnew res kx' n hrun
    simp only [NewKeyExchange] at hnew
    split at hnew
    · exact absurd hnew (by simp)
    · rename_i hle
      rw [Option.some.injEq] at hnew
      subst hnew
      refine Run_init_no_size P _ rfl ?_ res kx' n hrun
      show 24 + 4 + kxB.length + secretboxOverhead ≤ mp.padding
      omega

/-! ### Concrete scenario: a one-byte text secret, a 64-byte meeting
place handing out fixed per-tag replies, and exchanges built through
the constructors. -/

def ss1 : SharedSecret :=
  { secret := [120], cards := ⟨0, List.replicate 52 0⟩, day := 0, month := 0,
    year := 0, hours := 0, minutes := 0 }

def randF1 : Nat → Nat := fun n => n * 7 + 1

def key1 : Bytes := fill32 (toyKdf 2 ss1.toProto).1

def m1val : Bytes := fill32 (toyKdf 2 ss1.toProto).2.1

def m2val : Bytes := fill32 (toyKdf 2 ss1.toProto).2.2

def reply1 : Bytes := List.replicate 40 5

def priv1 : Bytes := randTake randF1 0 32

def peerPub1 : Bytes := fill32 (toyDec key1 (fill32 reply1))

/-- The session key the scenario's original exchange computes. -/
def K1 : Bytes := fill32 (toyMult priv1 peerPub1)

def nonce0 : Bytes := List.replicate 24 0

/-- The peer's second message: a sealed block carrying payload `[9, 9]`
under `K1`. -/
def reply2 : Bytes := nonce0 ++ toySeal nonce0 K1 [2, 0, 0, 0, 9, 9]

/-- A meeting place with fixed per-tag replies. -/
def mpC : MeetingPlace :=
  { padding := 64, exchange := fun id _ => if id = m1val then some reply1 else some reply2 }

/-- The scenario's freshly constructed (status `INIT`) exchange. -/
def kxO : KeyExchange := (NewKeyExchange toyPrims randF1 mpC ss1 [7]).getD default

/-- The scenario's exchange after a `Marshal`/`Unmarshal` round trip at
status `INIT`. -/
def kxRT : KeyExchange := (UnmarshalKeyExchange toyPrims randF1 mpC kxO.marshal).getD default

/-- A serialised exchange at status `EXCHANGE2` whose stored session
key begins with two zero bytes. -/
def pZero : ProtoKeyExchange :=
  { status := .EXCHANGE2,
    sharedSecret := some { secret := some [120], numDecks := none, cardCount := [], time := none },
    keyExchangeBytes := [7], dhPrivate := some zero32, key := some zero32,
    meeting1 := some zero32, meeting2 := some zero32,
    message1 := some [], message2 := some [], sharedKey := some zero32 }

def mpZ : MeetingPlace :=
  { padding := 64, exchange := fun _ _ => some (List.replicate 24 0) }

/-- The resumed exchange carrying the all-zero session key. -/
def kxZ : KeyExchange := (UnmarshalKeyExchange toyPrims (fun _ => 0) mpZ pZero).getD default

/-- A serialised exchange at status `EXCHANGE1`. -/
def pE1 : ProtoKeyExchange :=
  { status := .EXCHANGE1,
    sharedSecret := some { secret := some [120], numDecks := none, cardCount := [], time := none },
    keyExchangeBytes := [7], dhPrivate := some (List.replicate 32 3), key := some key1,
    meeting1 := some m1val, meeting2 := some m2val,
    message1 := some (List.replicate 64 0), message2 := some [],
    sharedKey := some (List.replicate 32 9) }

/-- A resumed `EXCHANGE1` exchange with the shutdown signal already
delivered. -/
def kxE1 : KeyExchange :=
  { (UnmarshalKeyExchange toyPrims randF1 mpC pE1).getD default with shutdown := true }

/-- A fresh `INIT` exchange with the shutdown signal already delivered. -/
def kxI : KeyExchange :=
  { (NewKeyExchange toyPrims randF1 mpC ss1 [7]).getD default with shutdown := true }

/-- C2 witness: a payload of one byte against a 64-byte meeting place
passes construction, and that exchange's `Run` produces none of the
size failures. -/
theorem C2_witness :
    (Run toyPrims ((NewKeyExchange toyPrims (fun n => n * 7 + 1)
        { padding := 64, exchange := fun _ _ => none } default [7]).getD default)).1
      ≠ .err .initTooLarge := by
  have h := (C2_size_check toyPrims (fun n => n * 7 + 1)
      { padding := 64, exchange := fun _ _ => none } default [7]).2
      ((NewKeyExchange toyPrims (fun n => n * 7 + 1)
        { padding := 64, exchange := fun _ _ => none } default [7]).getD default)
      (by rfl)
  exact (h _ _ _ rfl).1

end Panda

/-! ### Hex encoding facts used by the secret-string claims -/

namespace Panda

theorem hexEncode_length (xs : Bytes) : (hexEncode xs).length = 2 * xs.length := by
  induction xs with
  | nil => rfl
  | cons x t ih =>
    simp only [hexEncode, List.length_cons, ih]
    omega

theorem hexCharVal_hexDigitChar (d : Nat) (h : d < 16) :
    hexCharVal (hexDigitChar d) = some d := by
  unfold hexCharVal hexDigitChar
  by_cases h10 : d < 10
  · rw [if_pos h10, if_pos (by omega)]
    simp
  · rw [if_neg h10, if_neg (by omega), if_pos (by omega)]
    simp

theorem hexDecode_hexEncode (xs : Bytes) (h : ∀ x ∈ xs, x < 256) :
    hexDecode (hexEncode xs) = some xs := by
  induction xs with
  | nil => rfl
  | cons x t ih =>
    have hx : x < 256 := h x (by simp)
    have ht : ∀ y ∈ t, y < 256 := fun y hy => h y (by simp [hy])
    simp only [hexEncode, hexDecode,
      hexCharVal_hexDigitChar (x / 16) (by omega),
      hexCharVal_hexDigitChar (x % 16) (by omega), ih ht]
    have hx16 : x / 16 * 16 + x % 16 = x := by omega
    rw [hx16]

/-- The decoded byte after one hex character of value `v` replaces the
character at position `j`. -/
def newByteAt (xs : Bytes) (j v : Nat) : Nat :=
  if j % 2 = 0 then v * 16 + xs.getD (j / 2) 0 % 16
  else xs.getD (j / 2) 0 / 16 * 16 + v

theorem hexDecode_set_invalid (xs : Bytes) (j c : Nat)
    (h : ∀ x ∈ xs, x < 256) (hj : j < 2 * xs.length) (hc : hexCharVal c = none) :
    hexDecode ((hexEncode xs).set j c) = none := by
  induction xs generalizing j with
  | nil => simp at hj
  | cons x t ih =>
    have hx : x < 256 := h x (by simp)
    have ht : ∀ y ∈ t, y < 256 := fun y hy => h y (by simp [hy])
    match j with
    | 0 => simp [hexEncode, List.set, hexDecode, hc]
    | 1 =>
      simp only [hexEncode, List.set, hexDecode, hc,
        hexCharVal_hexDigitChar (x / 16) (by omega)]
    | Nat.succ (Nat.succ j') =>
      have hj' : j' < 2 * t.length := by simp at hj; omega
      simp only [hexEncode, List.set, hexDecode,
        hexCharVal_hexDigitChar (x / 16) (by omega),
        hexCharVal_hexDigitChar (x % 16) (by omega), ih j' ht hj']

theorem hexDecode_set_valid (xs : Bytes) (j c v : Nat)
    (h : ∀ x ∈ xs, x < 256) (hj : j < 2 * xs.length) (hc : hexCharVal c = some v) :
    hexDecode ((hexEncode xs).set j c) = some (xs.set (j / 2) (newByteAt xs j v)) := by
  induction xs generalizing j with
  | nil => simp at hj
  | cons x t ih =>
    have hx : x < 256 := h x (by simp)
    have ht : ∀ y ∈ t, y < 256 := fun y hy => h y (by simp [hy])
    match j with
    | 0 =>
      simp only [hexEncode, List.set, hexDecode, hc,
        hexCharVal_hexDigitChar (x % 16) (by omega), hexDecode_hexEncode t ht]
      simp [newByteAt]
    | 1 =>
      simp only [hexEncode, List.set, hexDecode, hc,
        hexCharVal_hexDigitChar (x / 16) (by omega), hexDecode_hexEncode t ht]
      simp [newByteAt]
    | Nat.succ (Nat.succ j') =>
      have hj' : j' < 2 * t.length := by simp at hj; omega
      simp only [hexEncode, List.set, hexDecode,
        hexCharVal_hexDigitChar (x / 16) (by omega),
        hexCharVal_hexDigitChar (x % 16) (by omega), ih j' ht hj']
      have hdiv : (j' + 1 + 1) / 2 = j' / 2 + 1 := by omega
      have hmod : (j' + 1 + 1) % 2 = j' % 2 := by omega
      have hx16 : x / 16 * 16 + x % 16 = x := by omega
      simp [newByteAt, hdiv, hmod, List.set, hx16]

/-- The hex character at position `j` of an encoded byte string. -/
theorem hexEncode_getD (xs : Bytes) (j : Nat) (hj : j < 2 * xs.length) :
    (hexEncode xs).getD j 0 =
      (if j % 2 = 0 then hexDigitChar (xs.getD (j / 2) 0 / 16)
       else hexDigitChar (xs.getD (j / 2) 0 % 16)) := by
  induction xs generalizing j with
  | nil => simp at hj
  | cons x t ih =>
    match j with
    | 0 => simp [hexEncode]
    | 1 => simp [hexEncode]
    | Nat.succ (Nat.succ j') =>
      have hj' : j' < 2 * t.length := by simp at hj; omega
      have hdiv : (j' + 1 + 1) / 2 = j' / 2 + 1 := by omega
      have hmod : (j' + 1 + 1) % 2 = j' % 2 := by omega
      simp only [hexEncode, List.getD_cons_succ, ih j' hj', hdiv, hmod]

theorem set_append_left {α : Type} (l1 l2 : List α) (k : Nat) (w : α)
    (h : k < l1.length) : (l1 ++ l2).set k w = l1.set k w ++ l2 := by
  induction l1 generalizing k with
  | nil => simp at h
  | cons a t ih =>
    match k with
    | 0 => simp [List.set]
    | Nat.succ k' =>
      have : k' < t.length := by simp at h; omega
      simp [List.set, ih k' this]

theorem set_append_right {α : Type} (l1 l2 : List α) (k : Nat) (w : α)
    (h : l1.length ≤ k) : (l1 ++ l2).set k w = l1 ++ l2.set (k - l1.length) w := by
  induction l1 generalizing k with
  | nil => simp
  | cons a t ih =>
    match k with
    | 0 => simp at h
    | Nat.succ k' =>
      have : t.length ≤ k' := by simp at h; omega
      simp [List.set, ih k' this]

end Panda

/-! ## Claim C6: single-byte mutations of a generated token -/

namespace Panda

def b16 : Bytes := List.replicate 16 0

/-- C6 counterexample: mutating byte 1 of a generated token from `'!'`
(33) to `'['` (91) switches it to the other recognised tag, and
`isValidSecretString` still accepts it — so not every single-byte
mutation is rejected. -/
theorem C6_counterexample :
    (newSecretString toySha b16).getD 1 0 = 33 ∧ (33 : Nat) ≠ 91 ∧
    isValidSecretString toySha (mutate (newSecretString toySha b16) 1 91) = true := by
  decide

/-- The 16-byte block obtained by applying the hex-level mutation
`(j, v)` to the random bytes `b`. -/
def chkBlock (b : Bytes) (j v : Nat) : Bytes := b.set (j / 2) (newByteAt b j v)

/-- C6 amended: a single-byte mutation of a generated token makes
`isValidSecretString` false, except for the three families the code
accepts: switching byte 1 from `'!'` to `'['` (the other recognised
tag), replacing a hex character by one of equal value (lowercase/
uppercase), and a mutation inside the 16 random bytes whose SHA-256
checksum collides on the stored two bytes. The last two exclusions
appear as the value-inequality and checksum-inequality hypotheses. -/
theorem C6_amended :
    ∀ (h : Bytes → Bytes) (b : Bytes) (i c : Nat),
      b.length = 16 → (∀ x ∈ b, x < 256) →
      (∀ xs, (h xs).length = 32) → (∀ xs, ∀ y ∈ h xs, y < 256) →
      c ≠ (newSecretString h b).getD i 0 →
      i < (newSecretString h b).length →
      (i = 1 → c ≠ 91) →
      (2 ≤ i → hexCharVal c ≠ hexCharVal ((newSecretString h b).getD i 0)) →
      (2 ≤ i → i < 34 → ∀ v, hexCharVal c = some v →
        (h (chkBlock b (i - 2) v)).take 2 ≠ (h b).take 2) →
      isValidSecretString h (mutate (newSecretString h b) i c) = false := by
  intro h b i c hb16 hb256 hh32 hh256 hne hilt h1c hval hcol
  obtain ⟨a0, a1, hr, hhb⟩ : ∃ a0 a1 r, h b = a0 :: a1 :: r := by
    match hb : h b, hh32 b with
    | a0 :: a1 :: r, _ => exact ⟨a0, a1, r, rfl⟩
  have htok : newSecretString h b = 114 :: 33 :: hexEncode (b ++ [a0, a1]) := by
    unfold newSecretString genTag1
    rw [hhb]
    rfl
  have hX18 : (b ++ [a0, a1]).length = 18 := by simp [hb16]
  have hX256 : ∀ x ∈ b ++ [a0, a1], x < 256 := by
    intro x hx
    rcases List.mem_append.mp hx with hx | hx
    · exact hb256 x hx
    · have h0 : a0 ∈ h b := by rw [hhb]; simp
      have h1 : a1 ∈ h b := by rw [hhb]; simp
      rcases List.mem_pair.mp hx with rfl | rfl
      · exact hh256 b x h0
      · exact hh256 b x h1
  match i, hilt with
  | 0, hi =>
    rw [htok] at hne
    simp only [List.getD_cons_zero] at hne
    have hmut : mutate (newSecretString h b) 0 c = c :: 33 :: hexEncode (b ++ [a0, a1]) := by
      rw [htok]
      rfl
    rw [hmut]
    unfold isValidSecretString
    rw [if_pos]
    push_neg
    constructor
    · simp [genTag1, List.isPrefixOf]
      intro hc
      exact absurd hc.symm hne
    · simp [genTag2, List.isPrefixOf]
  | 1, hi =>
    rw [htok] at hne
    simp only [List.getD_cons_succ, List.getD_cons_zero] at hne
    have hmut : mutate (newSecretString h b) 1 c = 114 :: c :: hexEncode (b ++ [a0, a1]) := by
      rw [htok]
      rfl
    rw [hmut]
    unfold isValidSecretString
    rw [if_pos]
    push_neg
    constructor
    · simp [genTag1, List.isPrefixOf]
      intro hc
      exact absurd hc.symm hne
    · simp [genTag2, List.isPrefixOf]
      intro hc
      exact absurd hc.symm (h1c rfl)
  | Nat.succ (Nat.succ j), hi =>
    have h2le : 2 ≤ j + 2 := by omega
    have hjlt : j < 36 := by
      rw [htok] at hi
      simp only [List.length_cons, hexEncode_length, hX18] at hi
      omega
    have hmut : mutate (newSecretString h b) (j + 2) c =
        114 :: 33 :: (hexEncode (b ++ [a0, a1])).set j c := by
      rw [htok]
      rfl
    rw [hmut]
    unfold isValidSecretString
    rw [if_neg (by simp [genTag1, List.isPrefixOf])]
    have hlen : ((hexEncode (b ++ [a0, a1])).set j c).length = 36 := by
      simp [hexEncode_length, hX18]
    rw [if_neg (by rw [List.drop_succ_cons, List.drop_succ_cons, List.drop_zero, hlen]; omega)]
    rw [List.drop_succ_cons, List.drop_succ_cons, List.drop_zero]
    rcases hcv : hexCharVal c with _ | v
    · rw [hexDecode_set_invalid (b ++ [a0, a1]) j c hX256 (by omega) hcv]
    · rw [hexDecode_set_valid (b ++ [a0, a1]) j c v hX256 (by omega) hcv]
      rw [decide_eq_false_iff_not]
      -- the mutated decoded byte differs from the original
      have hx256 : (b ++ [a0, a1]).getD (j / 2) 0 < 256 := by
        have hmem : (b ++ [a0, a1]).getD (j / 2) 0 ∈ b ++ [a0, a1] := by
          rw [List.getD_eq_getElem _ _ (by omega : j / 2 < (b ++ [a0, a1]).length)]
          exact List.getElem_mem _
        exact hX256 _ hmem
      have horig : (newSecretString h b).getD (j + 2) 0 =
          (hexEncode (b ++ [a0, a1])).getD j 0 := by
        rw [htok]
        simp
      have hvne : v ≠ (if j % 2 = 0 then (b ++ [a0, a1]).getD (j / 2) 0 / 16
          else (b ++ [a0, a1]).getD (j / 2) 0 % 16) := by
        intro hveq
        apply hval h2le
        rw [hcv, horig, hexEncode_getD _ _ (by omega)]
        by_cases hpar : j % 2 = 0
        · rw [if_pos hpar] at hveq ⊢
          rw [hexCharVal_hexDigitChar _ (by omega), hveq]
        · rw [if_neg hpar] at hveq ⊢
          rw [hexCharVal_hexDigitChar _ (by omega), hveq]
      have hwne : newByteAt (b ++ [a0, a1]) j v ≠ (b ++ [a0, a1]).getD (j / 2) 0 := by
        unfold newByteAt
        by_cases hpar : j % 2 = 0
        · rw [if_pos hpar]
          rw [if_pos hpar] at hvne
          omega
        · rw [if_neg hpar]
          rw [if_neg hpar] at hvne
          omega
      by_cases hreg : j < 32
      · -- mutation inside the 16 random bytes: the checksum no longer matches
        have hk : j / 2 < 16 := by omega
        have hXb : (b ++ [a0, a1]).getD (j / 2) 0 = b.getD (j / 2) 0 :=
          List.getD_append _ _ _ _ (by omega)
        have hwb : newByteAt (b ++ [a0, a1]) j v = newByteAt b j v := by
          unfold newByteAt
          rw [hXb]
        have hset : (b ++ [a0, a1]).set (j / 2) (newByteAt (b ++ [a0, a1]) j v) =
            b.set (j / 2) (newByteAt b j v) ++ [a0, a1] := by
          rw [hwb]
          exact set_append_left _ _ _ _ (by omega)
        rw [hset]
        have hlset : (b.set (j / 2) (newByteAt b j v)).length = 16 := by simp [hb16]
        have htake : (b.set (j / 2) (newByteAt b j v) ++ [a0, a1]).take 16 =
            b.set (j / 2) (newByteAt b j v) := by
          rw [show (16 : Nat) = (b.set (j / 2) (newByteAt b j v)).length from hlset.symm]
          exact List.take_left _ _
        rw [htake]
        have hg16 : (b.set (j / 2) (newByteAt b j v) ++ [a0, a1]).getD 16 0 = a0 := by
          rw [List.getD_append_right _ _ _ _ (by omega), hlset]
          simp
        have hg17 : (b.set (j / 2) (newByteAt b j v) ++ [a0, a1]).getD 17 0 = a1 := by
          rw [List.getD_append_right _ _ _ _ (by omega), hlset]
          simp
        rw [hg16, hg17]
        have hcb := hcol h2le (by omega) v hcv
        unfold chkBlock at hcb
        rw [show j + 2 - 2 = j from by omega] at hcb
        obtain ⟨c0, c1, r2, hhb'⟩ :
            ∃ c0 c1 r2, h (b.set (j / 2) (newByteAt b j v)) = c0 :: c1 :: r2 := by
          match hb' : h (b.set (j / 2) (newByteAt b j v)),
              hh32 (b.set (j / 2) (newByteAt b j v)) with
          | c0 :: c1 :: r2, _ => exact ⟨c0, c1, r2, rfl⟩
        rw [hhb', hhb] at hcb
        simp only [List.take_succ_cons, List.take_zero] at hcb
        rw [hhb']
        simp only [List.getD_cons_zero, List.getD_cons_succ]
        intro hcontra
        exact hcb (by rw [hcontra.1, hcontra.2])
      · -- mutation inside the stored checksum bytes
        have hk : 16 ≤ j / 2 := by omega
        have hset : (b ++ [a0, a1]).set (j / 2) (newByteAt (b ++ [a0, a1]) j v) =
            b ++ [a0, a1].set (j / 2 - 16) (newByteAt (b ++ [a0, a1]) j v) := by
          rw [set_append_right _ _ _ _ (by omega), hb16]
        rw [hset]
        have htake : (b ++ [a0, a1].set (j / 2 - 16) (newByteAt (b ++ [a0, a1]) j v)).take 16
            = b := by
          rw [show (16 : Nat) = b.length from hb16.symm]
          exact List.take_left _ _
        rw [htake, hhb]
        have hXg : (b ++ [a0, a1]).getD (j / 2) 0 = [a0, a1].getD (j / 2 - 16) 0 := by
          rw [List.getD_append_right _ _ _ _ (by omega), hb16]
        by_cases hk16 : j / 2 = 16
        · rw [hk16] at hwne hXg ⊢
          have : [a0, a1].set (16 - 16) (newByteAt (b ++ [a0, a1]) j v) =
              [newByteAt (b ++ [a0, a1]) j v, a1] := rfl
          rw [this]
          have hg16 : (b ++ [newByteAt (b ++ [a0, a1]) j v, a1]).getD 16 0 =
              newByteAt (b ++ [a0, a1]) j v := by
            rw [List.getD_append_right _ _ _ _ (by omega), hb16]
            simp
          rw [hg16]
          simp only [List.getD_cons_zero]
          intro hcontra
          exact hwne (by rw [hcontra.1, hXg]; simp)
        · have hk17 : j / 2 = 17 := by omega
          rw [hk17] at hwne hXg ⊢
          have : [a0, a1].set (17 - 16) (newByteAt (b ++ [a0, a1]) j v) =
              [a0, newByteAt (b ++ [a0, a1]) j v] := rfl
          rw [this]
          have hg17 : (b ++ [a0, newByteAt (b ++ [a0, a1]) j v]).getD 17 0 =
              newByteAt (b ++ [a0, a1]) j v := by
            rw [List.getD_append_right _ _ _ _ (by omega), hb16]
            simp
          rw [hg17]
          simp only [List.getD_cons_zero, List.getD_cons_succ]
          intro hcontra
          exact hwne (by rw [hcontra.2, hXg]; simp)

/-- C6 witness: mutating hex character 0 of the all-zero token from
`'0'` to `'1'` is rejected. -/
theorem C6_witness :
    isValidSecretString toySha (mutate (newSecretString toySha b16) 2 49) = false :=
  C6_amended toySha b16 2 49 (by decide) (by decide)
    (fun xs => by simp [toySha]) (fun xs y hy => by
      simp only [toySha, List.mem_map] at hy
      obtain ⟨z, -, rfl⟩ := hy
      exact Nat.mod_lt _ (by omega))
    (by decide) (by decide) (by omega) (by decide)
    (by
      intro h2 h34 v hv
      have hv1 : v = 1 := by simpa [hexCharVal] using hv.symm
      subst hv1
      decide)

end Panda

/-! ## Claim C1: serialise/deserialise round trip -/

namespace Panda

/-- A shared secret whose protobuf record deserialises again: a
positive deck count stays positive through the `int32` cast and carries
a full-length canonical count vector, and otherwise the text secret is
non-empty. -/
def SharedSecret.serialisable (s : SharedSecret) : Prop :=
  (0 < s.cards.numDecks →
    s.cards.numDecks < 2 ^ 31 ∧ s.cards.canonicalise.counts.length = numCards) ∧
  (s.cards.numDecks ≤ 0 → s.secret ≠ [])

theorem int32wrap_eq_self (n : Int) (h1 : -(2 ^ 31) ≤ n) (h2 : n < 2 ^ 31) :
    int32wrap n = n := by
  unfold int32wrap
  have h := Int.emod_eq_of_lt (a := n + 2 ^ 31) (b := 2 ^ 32) (by omega) (by omega)
  omega

theorem newSharedSecret_toProto (s : SharedSecret) (h : s.serialisable) :
    ∃ s', newSharedSecret s.toProto = some s' := by
  unfold newSharedSecret SharedSecret.toProto
  by_cases hnd : s.cards.numDecks > 0
  · have hw : int32wrap s.cards.numDecks = s.cards.numDecks :=
      int32wrap_eq_self _ (by omega) (h.1 hnd).1
    simp only [if_pos hnd, Option.getD_some, hw, (h.1 hnd).2]
    rw [if_neg (by simp)]
    exact ⟨_, rfl⟩
  · have hsec : s.secret ≠ [] := h.2 (by omega)
    have hlen : s.secret.length > 0 := by
      cases hs : s.secret with
      | nil => exact absurd hs hsec
      | cons a t => simp
    simp only [if_neg hnd, if_pos hlen, Option.getD_none, Option.getD_some]
    rw [if_neg (by omega)]
    rw [if_neg (by simpa using hsec)]
    exact ⟨_, rfl⟩

theorem exchange2_fst_congr (P : Prims) (ka kb : KeyExchange)
    (hmp : ka.meetingPlace = kb.meetingPlace) (h2 : ka.meeting2 = kb.meeting2)
    (hm : ka.message2 = kb.message2) (hsk : ka.sharedKey = kb.sharedKey) :
    (exchange2 P ka).1 = (exchange2 P kb).1 := by
  unfold exchange2
  dsimp only
  rw [hmp, h2, hm, hsk]

theorem runFrom1_fst_congr (P : Prims) (ka kb : KeyExchange)
    (hmp : ka.meetingPlace = kb.meetingPlace)
    (hfix : ∀ id m m', kb.meetingPlace.exchange id m = kb.meetingPlace.exchange id m')
    (h1 : ka.meeting1 = kb.meeting1) (hmsg : ka.message1 = kb.message1)
    (hk : ka.key = kb.key) (hdh : ka.dhPrivate = kb.dhPrivate)
    (hb : ka.kxBytes = kb.kxBytes) (h2 : ka.meeting2 = kb.meeting2)
    (hsh : ka.shutdown = kb.shutdown) :
    (runFrom1 P ka).1 = (runFrom1 P kb).1 := by
  simp only [runFrom1, exchange1, updateSerialised]
  rw [hmp, h1, hmsg, hk, hdh, hb, h2, hsh]
  cases hr : kb.meetingPlace.exchange kb.meeting1 kb.message1 with
  | none => rfl
  | some reply =>
    dsimp only
    by_cases c1 : reply.length < 32
    · simp only [if_pos c1]
    · simp only [if_neg c1]
      by_cases c2 : kb.meetingPlace.padding < 24 + secretboxOverhead
      · simp only [if_pos c2]
      · simp only [if_neg c2]
        by_cases c3 : kb.meetingPlace.padding - 24 - secretboxOverhead < 4
        · simp only [if_pos c3]
        · simp only [if_neg c3]
          by_cases c4 : kb.meetingPlace.padding - 24 - secretboxOverhead <
              4 + kb.kxBytes.length
          · simp only [if_pos c4]
          · simp only [if_neg c4]
            by_cases c5 : kb.shutdown = true
            · simp only [if_pos c5]
            · simp only [if_neg c5, exchange2]
              exact congrArg (exchange2res P _) (hfix _ _ _)

/-- C1 amended: the round trip holds for exchanges stored at statuses
`EXCHANGE1` and `EXCHANGE2` (given a current snapshot, the `[32]byte`
field lengths, a serialisable shared secret and a meeting place whose
replies depend only on the tag): deserialising the marshalled state and
running it yields the same result as running the original. It fails at
status `INIT`, whose snapshot omits the freshly generated DH private
key (see the counterexample). -/
theorem C1_amended :
    ∀ (P : Prims) (randF2 : Nat → Nat) (kx : KeyExchange),
      kx.status = .EXCHANGE1 ∨ kx.status = .EXCHANGE2 →
      kx.shutdown = false →
      kx.serialised = mkProto kx →
      kx.key.length = 32 → kx.meeting1.length = 32 → kx.meeting2.length = 32 →
      kx.dhPrivate.length = 32 → kx.sharedKey.length = 32 →
      kx.sharedSecret.serialisable →
      (∀ id m m', kx.meetingPlace.exchange id m = kx.meetingPlace.exchange id m') →
      ∃ kx2, UnmarshalKeyExchange P randF2 kx.meetingPlace kx.marshal = some kx2 ∧
        (Run P kx2).1 = (Run P kx).1 := by
  intro P randF2 kx hst hsh hser hlk hlm1 hlm2 hldh hlsk hss hfix
  have hstne : ¬kx.status = .INIT := by
    rcases hst with h | h <;> rw [h] <;> simp
  obtain ⟨s', hs'⟩ := newSharedSecret_toProto kx.sharedSecret hss
  have hmk : mkProto kx =
      { status := kx.status, sharedSecret := some kx.sharedSecret.toProto,
        keyExchangeBytes := kx.kxBytes,
        dhPrivate := some kx.dhPrivate, key := some kx.key,
        meeting1 := some kx.meeting1, meeting2 := some kx.meeting2,
        message1 := some kx.message1, message2 := some kx.message2,
        sharedKey := some kx.sharedKey } := by
    unfold mkProto
    rw [if_neg hstne]
  have hu : UnmarshalKeyExchange P randF2 kx.meetingPlace kx.marshal = some
      { testing := false, shutdown := false, randF := randF2, randPos := 0,
        status := kx.status, meetingPlace := kx.meetingPlace, sharedSecret := s',
        serialised := mkProto kx, kxBytes := kx.kxBytes,
        key := fill32 kx.key, meeting1 := fill32 kx.meeting1,
        meeting2 := fill32 kx.meeting2,
        dhPublic := fill32 (P.scalarBaseMult (fill32 kx.dhPrivate)),
        dhPrivate := fill32 kx.dhPrivate, sharedKey := fill32 kx.sharedKey,
        message1 := kx.message1, message2 := kx.message2 } := by
    show UnmarshalKeyExchange P randF2 kx.meetingPlace kx.serialised = _
    rw [hser]
    unfold UnmarshalKeyExchange
    rw [hmk]
    simp only [Option.getD_some]
    rw [hs']
  refine ⟨_, hu, ?_⟩
  rcases hst with h | h
  · unfold Run
    dsimp only
    rw [h]
    dsimp only
    exact runFrom1_fst_congr P _ kx rfl hfix
      (fill32_of_length_32 _ hlm1) rfl (fill32_of_length_32 _ hlk)
      (fill32_of_length_32 _ hldh) rfl (fill32_of_length_32 _ hlm2) hsh.symm
  · unfold Run
    dsimp only
    rw [h]
    dsimp only
    exact exchange2_fst_congr P _ kx rfl (fill32_of_length_32 _ hlm2) rfl
      (fill32_of_length_32 _ hlsk)

/-- C1 counterexample: at status `INIT` the claim fails. The snapshot
of a freshly constructed exchange omits the DH private key
(`updateSerialised` stores derived fields only past `INIT`), so the
deserialised copy recomputes a different session key: against the same
fixed-reply meeting place the original run returns the peer payload
`[9, 9]` while the round-tripped run fails authentication. -/
theorem C1_counterexample :
    (Run toyPrims kxO).1 = .payload [9, 9] ∧
    (UnmarshalKeyExchange toyPrims randF1 mpC kxO.marshal).isSome = true ∧
    (Run toyPrims kxRT).1 = .err .authFail ∧
    (Run toyPrims kxRT).1 ≠ (Run toyPrims kxO).1 := by
  refine ⟨by decide, by decide, by decide, by decide⟩

/-- C1 witness: the amended round-trip equality applied to the
resumed `EXCHANGE2` exchange `kxZ`. -/
theorem C1_witness :
    ∃ kx2, UnmarshalKeyExchange toyPrims (fun _ => 0) kxZ.meetingPlace kxZ.marshal =
        some kx2 ∧ (Run toyPrims kx2).1 = (Run toyPrims kxZ).1 :=
  C1_amended toyPrims (fun _ => 0) kxZ (Or.inr (by decide)) (by decide) (by decide)
    (by decide) (by decide) (by decide) (by decide) (by decide)
    ⟨fun h => absurd h (by decide), fun _ => by decide⟩
    (fun id m m' => rfl)

end Panda

/-! ## Claim C9: the `panic("here")` in `exchange2` -/

namespace Panda

theorem exchange2res_panic_iff (P : Prims) (sk : Bytes) (o : Option Bytes) :
    exchange2res P sk o = .panicked "here" ↔
      ∃ reply, o = some reply ∧ 24 ≤ reply.length ∧
        sk.getD 0 0 = 0 ∧ sk.getD 1 0 = 0 := by
  cases o with
  | none => simp [exchange2res]
  | some reply =>
    simp only [exchange2res, Option.some.injEq]
    by_cases hlen : reply.length < 24
    · rw [if_pos hlen]
      constructor
      · intro h; exact absurd h (by simp)
      · rintro ⟨r, rfl, h24, _⟩; omega
    · rw [if_neg hlen]
      by_cases hz : sk.getD 0 0 = 0 ∧ sk.getD 1 0 = 0
      · rw [if_pos hz]
        exact iff_of_true rfl ⟨reply, rfl, by omega, hz.1, hz.2⟩
      · rw [if_neg hz]
        constructor
        · intro h
          exfalso
          rcases ho : P.secretboxOpen (reply.take 24) sk (reply.drop 24) with _ | msg
          · simp only [ho] at h
            exact absurd h (by simp)
          · simp only [ho] at h
            split at h
            · exact absurd h (by simp)
            · split at h
              · exact absurd h (by simp)
              · exact absurd h (by simp)
        · rintro ⟨r, rfl, _, hz1, hz2⟩
          exact absurd ⟨hz1, hz2⟩ hz

/-- C9: at status `EXCHANGE2`, `Run` panics (at the `panic("here")`
site) instead of returning an error or a payload exactly when the
meeting place replies with at least 24 bytes and the stored
Diffie-Hellman session key has its first two bytes both zero; for every
other session-key value the panic is unreachable. -/
theorem C9_zero_sharedkey_panic :
    ∀ (P : Prims) (kx : KeyExchange), kx.status = .EXCHANGE2 →
      ((Run P kx).1 = .panicked "here" ↔
        ∃ reply, kx.meetingPlace.exchange kx.meeting2 kx.message2 = some reply ∧
          24 ≤ reply.length ∧ kx.sharedKey.getD 0 0 = 0 ∧ kx.sharedKey.getD 1 0 = 0) := by
  intro P kx hst
  unfold Run
  rw [hst]
  exact exchange2res_panic_iff P kx.sharedKey _

/-- C9 witness: a serialised exchange resumed through
`UnmarshalKeyExchange` with an all-zero stored session key panics. -/
theorem C9_witness : (Run toyPrims kxZ).1 = .panicked "here" :=
  (C9_zero_sharedkey_panic toyPrims kxZ (by decide)).mpr
    ⟨List.replicate 24 0, rfl, by decide, by decide, by decide⟩

end Panda

/-! ## Claim C7: shutdown signalled before `Run` -/

namespace Panda

theorem runFrom1_calls_pos (P : Prims) (kx : KeyExchange) :
    1 ≤ (runFrom1 P kx).2.2 := by
  unfold runFrom1
  cases exchange1 P kx with
  | ok kx1 =>
    dsimp only
    split
    · simp
    · simp
  | fail r kx1 => simp

/-- C7 amended: a shutdown signal delivered before `Run` produces the
dedicated shutdown error without any `Exchange` call only when the
stored status is `INIT` (there, after password derivation, at the first
boundary check); for statuses `EXCHANGE1` and `EXCHANGE2` the step's
meeting-place `Exchange` call is made first, so at least one call
happens. -/
theorem C7_amended :
    ∀ (P : Prims) (kx : KeyExchange), kx.shutdown = true →
      (kx.status = .INIT →
        24 + 4 + kx.kxBytes.length + secretboxOverhead ≤ kx.meetingPlace.padding →
        (Run P kx).1 = .err .shutdown ∧ (Run P kx).2.2 = 0) ∧
      (kx.status ≠ .INIT → 1 ≤ (Run P kx).2.2) := by
  intro P kx hsh
  constructor
  · intro hst hpad
    unfold Run
    rw [hst]
    dsimp only
    rcases hd : derivePassword P kx with ⟨e, kx1⟩
    cases e with
    | some e' =>
      exfalso
      have : (derivePassword P kx).1 ≠ none := by rw [hd]; simp
      rw [derivePassword_fail_iff] at this
      simp only [secretboxOverhead] at hpad
      omega
    | none =>
      have hsh1 : kx1.shutdown = true := by
        have := derivePassword_shutdown P kx
        rw [hd] at this
        rw [this, hsh]
      dsimp only
      rw [if_pos (show (updateSerialised { kx1 with status := .EXCHANGE1 }).shutdown = true
        from hsh1)]
      exact ⟨rfl, rfl⟩
  · intro hst
    unfold Run
    cases hs : kx.status with
    | INIT => exact absurd hs hst
    | EXCHANGE1 => exact runFrom1_calls_pos P kx
    | EXCHANGE2 => simp

/-- C7 counterexample: a resumed `EXCHANGE1` exchange with the shutdown
signal already delivered still makes one meeting-place `Exchange` call
during `Run`, contradicting "without making any Meeting Place Exchange
call ... regardless of the stored status". -/
theorem C7_counterexample :
    kxE1.shutdown = true ∧ kxE1.status = .EXCHANGE1 ∧ (Run toyPrims kxE1).2.2 = 1 := by
  refine ⟨rfl, by decide, ?_⟩
  decide

/-- C7 witness: at status `INIT` with the signal delivered, `Run`
returns the shutdown error having made no `Exchange` call. -/
theorem C7_witness :
    (Run toyPrims kxI).1 = .err .shutdown ∧ (Run toyPrims kxI).2.2 = 0 :=
  (C7_amended toyPrims kxI rfl).1 (by decide) (by decide)

end Panda

/-! ## Claim C3: reply handling in the `EXCHANGE2` step -/

namespace Panda

/-- C3 amended: for a reply received in the `EXCHANGE2` step, a reply
shorter than 24 bytes is a terminal error; and — provided the shared
key does not begin with two zero bytes, in which case `Run` panics
instead (claim C9) — failed authenticated decryption, a decrypted block
shorter than 4 bytes, and a length prefix exceeding the remaining bytes
are each terminal errors, while on success `Run` returns exactly the
prefix-named number of bytes taken immediately after the prefix. -/
theorem C3_amended :
    ∀ (P : Prims) (kx : KeyExchange) (reply : Bytes),
      kx.status = .EXCHANGE2 →
      kx.meetingPlace.exchange kx.meeting2 kx.message2 = some reply →
      ((reply.length < 24 → (Run P kx).1 = .err .replyTooSmall) ∧
       (24 ≤ reply.length →
        ¬(kx.sharedKey.getD 0 0 = 0 ∧ kx.sharedKey.getD 1 0 = 0) →
        (P.secretboxOpen (reply.take 24) kx.sharedKey (reply.drop 24) = none →
          (Run P kx).1 = .err .authFail) ∧
        (∀ msg, P.secretboxOpen (reply.take 24) kx.sharedKey (reply.drop 24) = some msg →
          (msg.length < 4 → (Run P kx).1 = .err .msgInvalid) ∧
          (4 ≤ msg.length →
            ((msg.drop 4).length < le32dec (msg.take 4) →
              (Run P kx).1 = .err .msgTruncated) ∧
            (le32dec (msg.take 4) ≤ (msg.drop 4).length →
              (Run P kx).1 = .payload ((msg.drop 4).take (le32dec (msg.take 4)))))))) := by
  intro P kx reply hst hex
  have hrun : (Run P kx).1 = exchange2res P kx.sharedKey (some reply) := by
    unfold Run
    rw [hst]
    dsimp only [exchange2]
    rw [hex]
  refine ⟨?_, ?_⟩
  · intro hlen
    rw [hrun]
    simp only [exchange2res]
    rw [if_pos hlen]
  · intro h24 hz
    refine ⟨?_, ?_⟩
    · intro ho
      rw [hrun]
      simp only [exchange2res]
      rw [if_neg (by omega), if_neg hz]
      simp only [ho]
    · intro msg ho
      refine ⟨?_, ?_⟩
      · intro hm4
        rw [hrun]
        simp only [exchange2res]
        rw [if_neg (by omega), if_neg hz]
        simp only [ho]
        rw [if_pos hm4]
      · intro hm4
        refine ⟨?_, ?_⟩
        · intro htr
          rw [hrun]
          simp only [exchange2res]
          rw [if_neg (by omega), if_neg hz]
          simp only [ho]
          rw [if_neg (by omega), if_pos htr]
        · intro hle
          rw [hrun]
          simp only [exchange2res]
          rw [if_neg (by omega), if_neg hz]
          simp only [ho]
          rw [if_neg (by omega), if_neg (by omega)]

/-- C3 counterexample: in the resumed exchange `kxZ` the received
reply's authenticated decryption under the shared key fails, yet `Run`
does not return a terminal error — it panics at `panic("here")`. -/
theorem C3_counterexample :
    toyPrims.secretboxOpen ((List.replicate 24 0).take 24) kxZ.sharedKey
        ((List.replicate 24 0).drop 24) = none ∧
    kxZ.meetingPlace.exchange kxZ.meeting2 kxZ.message2 = some (List.replicate 24 0) ∧
    (Run toyPrims kxZ).1 = .panicked "here" := by
  decide

/-- A serialised exchange at status `EXCHANGE2` with an all-ones
session key. -/
def pS : ProtoKeyExchange :=
  { status := .EXCHANGE2,
    sharedSecret := some { secret := some [120], numDecks := none, cardCount := [], time := none },
    keyExchangeBytes := [7], dhPrivate := some zero32, key := some zero32,
    meeting1 := some zero32, meeting2 := some zero32,
    message1 := some [], message2 := some [], sharedKey := some (List.replicate 32 1) }

/-- A reply sealed under the all-ones key carrying payload `[9, 9]`. -/
def replyS : Bytes := nonce0 ++ toySeal nonce0 (List.replicate 32 1) [2, 0, 0, 0, 9, 9]

def mpS : MeetingPlace := { padding := 64, exchange := fun _ _ => some replyS }

def kxS : KeyExchange := (UnmarshalKeyExchange toyPrims (fun _ => 0) mpS pS).getD default

/-- C3 witness: the success path returns exactly the two bytes named by
the length prefix. -/
theorem C3_witness : (Run toyPrims kxS).1 = .payload [9, 9] := by
  have h := C3_amended toyPrims kxS replyS (by decide) (by decide)
  have h2 := (h.2 (by decide) (by decide)).2 [2, 0, 0, 0, 9, 9] (by decide)
  have h3 := (h2.2 (by decide)).2 (by decide)
  exact h3

end Panda

/-! ## Claim C4: wire message structure and padding -/

namespace Panda

theorem le32enc_length (n : Nat) : (le32enc n).length = 4 := rfl

theorem toySeal_length (nonce key msg : Bytes) :
    (toySeal nonce key msg).length = msg.length + secretboxOverhead := by
  simp [toySeal, toySealBody, toyMac, secretboxOverhead]

/-- C4: once construction has succeeded (the size inequality holds),
message 1 is the 32-byte block-cipher-encrypted DH public value
followed by filler up to `Padding()`, and message 2 is a 24-byte
cleartext nonce followed by the authenticated-encryption output over a
padded block of exactly `Padding() - 24 - Overhead` bytes holding the
4-byte little-endian length prefix, the payload, and filler; both
messages are exactly `Padding()` bytes long (given the secretbox length
law `len(Seal(m)) = len(m) + Overhead`). -/
theorem C4_wire_message_sizes :
    ∀ (P : Prims) (kx : KeyExchange),
      (∀ nonce key msg, (P.secretboxSeal nonce key msg).length =
        msg.length + secretboxOverhead) →
      24 + 4 + kx.kxBytes.length + secretboxOverhead ≤ kx.meetingPlace.padding →
      (∀ e kx1, derivePassword P kx = (e, kx1) →
        e = none ∧ kx1.message1.length = kx.meetingPlace.padding ∧
        ∃ filler, kx1.message1 = fill32 (P.rijndaelEnc kx1.key kx.dhPublic) ++ filler ∧
          filler.length = kx.meetingPlace.padding - 32) ∧
      (∀ kx2, exchange1 P kx = .ok kx2 →
        kx2.message2.length = kx.meetingPlace.padding ∧
        ∃ nonce padded filler2, nonce.length = 24 ∧
          padded.length = kx.meetingPlace.padding - 24 - secretboxOverhead ∧
          kx2.message2 = nonce ++ P.secretboxSeal nonce kx2.sharedKey padded ∧
          padded = le32enc kx.kxBytes.length ++ kx.kxBytes ++ filler2 ∧
          filler2.length =
            kx.meetingPlace.padding - 24 - secretboxOverhead - 4 - kx.kxBytes.length) := by
  intro P kx hseal hpad
  have hpad' : 44 + kx.kxBytes.length ≤ kx.meetingPlace.padding := by
    simp only [secretboxOverhead] at hpad
    omega
  constructor
  · intro e kx1 hd
    unfold derivePassword at hd
    dsimp only at hd
    rw [if_neg (by omega)] at hd
    rw [Prod.mk.injEq] at hd
    obtain ⟨rfl, rfl⟩ := hd.symm.imp Eq.symm Eq.symm |>.imp id id
    refine ⟨hd.1.symm, ?_, ?_⟩
    · simp [fill32_length, randTake_length]
      omega
    · exact ⟨_, rfl, randTake_length _ _ _⟩
  · intro kx2 he
    unfold exchange1 at he
    cases hex : kx.meetingPlace.exchange kx.meeting1 kx.message1 with
    | none => rw [hex] at he; exact absurd he (by simp)
    | some reply =>
      rw [hex] at he
      dsimp only at he
      split at he
      · exact absurd he (by simp)
      · split at he
        · exact absurd he (by simp)
        · split at he
          · exact absurd he (by simp)
          · split at he
            · exact absurd he (by simp)
            · obtain rfl := StepOut.ok.inj he
              refine ⟨?_, _, _, _, randTake_length _ _ _, ?_, rfl, rfl, ?_⟩
              · simp [hseal, randTake_length, le32enc_length]
                omega
              · simp [randTake_length, le32enc_length]
                omega
              · simp [randTake_length]

/-- C4 witness: in the concrete scenario both constructed messages are
exactly 64 bytes. -/
theorem C4_witness :
    ((derivePassword toyPrims kxO).2).message1.length = 64 := by
  have h := (C4_wire_message_sizes toyPrims kxO toySeal_length (by decide)).1
    (derivePassword toyPrims kxO).1 (derivePassword toyPrims kxO).2 rfl
  exact h.2.1

end Panda

/-! ## Claim C8: failed runs leave the persisted snapshot at the last
completed transition -/

namespace Panda

/-- C8: every failing step returns a state whose serialised snapshot is
the one it was entered with (first three conjuncts), and a `Run` that
does not return a payload leaves the snapshot either untouched or equal
to the record persisted by `updateSerialised` immediately after the
last completed transition (final conjunct, with the completed
transitions named through the step functions). -/
theorem C8_persistence :
    ∀ (P : Prims) (kx : KeyExchange),
      (∀ e kx1, derivePassword P kx = (e, kx1) → kx1.serialised = kx.serialised) ∧
      (∀ r kx1, exchange1 P kx = .fail r kx1 → kx1.serialised = kx.serialised) ∧
      ((exchange2 P kx).2 = kx) ∧
      (∀ res kx' n, Run P kx = (res, kx', n) → (∀ b, res ≠ .payload b) →
        kx'.serialised = kx.serialised ∨
        (kx.status = .INIT ∧ ∃ kx1, derivePassword P kx = (none, kx1) ∧
          kx'.serialised = mkProto { kx1 with status := .EXCHANGE1 }) ∨
        (kx.status = .EXCHANGE1 ∧ ∃ kx2, exchange1 P kx = .ok kx2 ∧
          kx'.serialised = mkProto { kx2 with status := .EXCHANGE2 }) ∨
        (kx.status = .INIT ∧ ∃ kx1 kx2, derivePassword P kx = (none, kx1) ∧
          exchange1 P (updateSerialised { kx1 with status := .EXCHANGE1 }) = .ok kx2 ∧
          kx'.serialised = mkProto { kx2 with status := .EXCHANGE2 })) := by
  intro P kx
  refine ⟨?_, ?_, exchange2_state P kx, ?_⟩
  · intro e kx1 hd
    have h := derivePassword_serialised P kx
    rw [hd] at h
    exact h
  · intro r kx1 hf
    have h := exchange1_state_serialised P kx
    rw [hf] at h
    exact h
  · intro res kx' n hrun hres
    cases hst : kx.status with
    | EXCHANGE2 =>
      left
      unfold Run at hrun
      rw [hst] at hrun
      dsimp only at hrun
      rw [Prod.mk.injEq, Prod.mk.injEq] at hrun
      obtain ⟨-, h2, -⟩ := hrun
      rw [← h2, exchange2_state]
    | EXCHANGE1 =>
      unfold Run at hrun
      rw [hst] at hrun
      unfold runFrom1 at hrun
      cases he : exchange1 P kx with
      | fail r kx1 =>
        rw [he] at hrun
        dsimp only at hrun
        rw [Prod.mk.injEq, Prod.mk.injEq] at hrun
        obtain ⟨-, h2, -⟩ := hrun
        left
        rw [← h2]
        have h := exchange1_state_serialised P kx
        rw [he] at h
        exact h
      | ok kx2 =>
        rw [he] at hrun
        dsimp only at hrun
        split at hrun
        · rw [Prod.mk.injEq, Prod.mk.injEq] at hrun
          obtain ⟨-, h2, -⟩ := hrun
          right; right; left
          exact ⟨rfl, kx2, rfl, by rw [← h2]; rfl⟩
        · rw [Prod.mk.injEq, Prod.mk.injEq] at hrun
          obtain ⟨-, h2, -⟩ := hrun
          right; right; left
          refine ⟨rfl, kx2, rfl, ?_⟩
          rw [← h2, exchange2_state]
          rfl
    | INIT =>
      unfold Run at hrun
      rw [hst] at hrun
      dsimp only at hrun
      rcases hd : derivePassword P kx with ⟨e, kx1⟩
      rw [hd] at hrun
      cases e with
      | some e' =>
        dsimp only at hrun
        rw [Prod.mk.injEq, Prod.mk.injEq] at hrun
        obtain ⟨-, h2, -⟩ := hrun
        left
        rw [← h2]
        have h := derivePassword_serialised P kx
        rw [hd] at h
        exact h
      | none =>
        dsimp only at hrun
        split at hrun
        · rw [Prod.mk.injEq, Prod.mk.injEq] at hrun
          obtain ⟨-, h2, -⟩ := hrun
          right; left
          exact ⟨rfl, kx1, rfl, by rw [← h2]; rfl⟩
        · unfold runFrom1 at hrun
          cases he : exchange1 P (updateSerialised { kx1 with status := .EXCHANGE1 }) with
          | fail r kx1' =>
            rw [he] at hrun
            dsimp only at hrun
            rw [Prod.mk.injEq, Prod.mk.injEq] at hrun
            obtain ⟨-, h2, -⟩ := hrun
            right; left
            refine ⟨rfl, kx1, rfl, ?_⟩
            rw [← h2]
            have h := exchange1_state_serialised P (updateSerialised { kx1 with status := .EXCHANGE1 })
            rw [he] at h
            exact h
          | ok kx2 =>
            rw [he] at hrun
            dsimp only at hrun
            split at hrun
            · rw [Prod.mk.injEq, Prod.mk.injEq] at hrun
              obtain ⟨-, h2, -⟩ := hrun
              right; right; right
              exact ⟨rfl, kx1, kx2, rfl, he, by rw [← h2]; rfl⟩
            · rw [Prod.mk.injEq, Prod.mk.injEq] at hrun
              obtain ⟨-, h2, -⟩ := hrun
              right; right; right
              refine ⟨rfl, kx1, kx2, rfl, he, ?_⟩
              rw [← h2, exchange2_state]
              rfl

/-- C8 witness: the resumed `EXCHANGE2` exchange `kxZ` panics, and its
snapshot is exactly the one it was resumed with. -/
theorem C8_witness :
    (Run toyPrims kxZ).2.1.serialised = kxZ.serialised ∨
    (kxZ.status = .INIT ∧ ∃ kx1, derivePassword toyPrims kxZ = (none, kx1) ∧
      (Run toyPrims kxZ).2.1.serialised = mkProto { kx1 with status := .EXCHANGE1 }) ∨
    (kxZ.status = .EXCHANGE1 ∧ ∃ kx2, exchange1 toyPrims kxZ = .ok kx2 ∧
      (Run toyPrims kxZ).2.1.serialised = mkProto { kx2 with status := .EXCHANGE2 }) ∨
    (kxZ.status = .INIT ∧ ∃ kx1 kx2, derivePassword toyPrims kxZ = (none, kx1) ∧
      exchange1 toyPrims (updateSerialised { kx1 with status := .EXCHANGE1 }) = .ok kx2 ∧
      (Run toyPrims kxZ).2.1.serialised = mkProto { kx2 with status := .EXCHANGE2 }) :=
  (C8_persistence toyPrims kxZ).2.2.2 (Run toyPrims kxZ).1 (Run toyPrims kxZ).2.1
    (Run toyPrims kxZ).2.2 rfl
    (by
      intro b
      rw [show (Run toyPrims kxZ).1 = .panicked "here" from by decide]
      simp)

end Panda
